import Mathlib

/-!
Verification of the darwin-symbolic-hotkeys normalization pipeline.

The definitions below are a shallow embedding of the two Python scripts
`scripts/parse-shortcuts.py` (name normalizer, node classifier, hierarchy
builder) and `scripts/generate-tree.py` (statistics aggregator, tree
renderer).  Python strings are modelled as Lean `String`/`List Char`
(ASCII case mapping, as in `Char.toUpper`/`Char.toLower`); Python dicts
with insertion order are modelled as association lists with an
insert-or-overwrite-in-place operation; optional dict keys are modelled
with `Option`.
-/

namespace Hotkeys

/-- Python `\s` (ASCII fragment): the whitespace characters recognised by
`str.split()` and the `\s*` parts of the regexes in `parse-shortcuts.py`. -/
def pyIsSpace (c : Char) : Bool :=
  c = ' ' || c = '\t' || c = '\n' || c = '\r' || c = '\x0b' || c = '\x0c'

/-- The literal marker `"DO_NOT_LOCALIZE:"` (16 characters). -/
def dnlMarker : List Char := "DO_NOT_LOCALIZE:".toList

/-- Model of `re.sub(r'^DO_NOT_LOCALIZE:\s*', '', s)` on the character list:
if the marker is a prefix, drop it together with the maximal following
whitespace run; otherwise return the list unchanged. -/
def stripLocalizeMark (cs : List Char) : List Char :=
  if dnlMarker.isPrefixOf cs then (cs.drop dnlMarker.length).dropWhile pyIsSpace
  else cs

/-- `clean_name` from `parse-shortcuts.py`:
`re.sub(r'^DO_NOT_LOCALIZE:\s*', '', s)`. -/
def clean_name (s : String) : String :=
  String.mk (stripLocalizeMark s.toList)

/-- Model of `re.sub(r'\s*\(SUF\)$', '', s)`.  Python's `$` (without
`re.MULTILINE`) matches at the end of the string and also just before a
newline that ends the string, so the maximal whitespace run plus the
parenthesised literal `suf` is removed when it ends the string outright,
and likewise when exactly one final newline follows it (that newline is
kept); otherwise the string is unchanged. -/
def stripSuffixWs (suf cs : List Char) : List Char :=
  if suf.reverse.isPrefixOf cs.reverse then
    ((cs.reverse.drop suf.length).dropWhile pyIsSpace).reverse
  else if cs.reverse.head? = some '\n' ∧ suf.reverse.isPrefixOf cs.reverse.tail then
    ('\n' :: ((cs.reverse.tail.drop suf.length).dropWhile pyIsSpace)).reverse
  else cs

/-- Python `str.lower()` (ASCII fragment). -/
def pyLower (cs : List Char) : List Char := cs.map Char.toLower

/-- Python `str.capitalize()` (ASCII fragment): first character upper-cased,
every remaining character lower-cased. -/
def pyCapitalize : List Char → List Char
  | [] => []
  | c :: rest => Char.toUpper c :: rest.map Char.toLower

/-- The character class `[a-zA-Z0-9]` of the final cleanup regex. -/
def isAsciiAlnum (c : Char) : Bool :=
  ('a' ≤ c && c ≤ 'z') || ('A' ≤ c && c ≤ 'Z') || ('0' ≤ c && c ≤ '9')

/-- Python `str.split()` with no separator: split on runs of whitespace,
discarding empty words.  `cur` accumulates the current word reversed. -/
def splitWsAux : List Char → List Char → List (List Char)
  | [], cur => if cur.isEmpty then [] else [cur.reverse]
  | c :: rest, cur =>
    if pyIsSpace c then
      if cur.isEmpty then splitWsAux rest [] else cur.reverse :: splitWsAux rest []
    else splitWsAux rest (c :: cur)

/-- Python `str.split()` with no separator. -/
def splitWs (cs : List Char) : List (List Char) := splitWsAux cs []

/-- The literal `(AX_DESCRIPTION)` of the first suffix regex. -/
def axDescriptionLit : List Char := "(AX_DESCRIPTION)".toList

/-- The literal `(window management)` of the second suffix regex. -/
def windowManagementLit : List Char := "(window management)".toList

/-- `to_camel_case` from `parse-shortcuts.py`, step for step:
strip the `DO_NOT_LOCALIZE:` prefix, strip the two annotation suffixes
(each together with any whitespace immediately before it, as the `\s*`
in the regex does, and honouring the `$` anchor's match just before a
single trailing newline), replace `/` and `-` by spaces, split into
words, lower-case the first word, `str.capitalize()` the rest,
concatenate, and finally drop every character outside `[a-zA-Z0-9]`. -/
def to_camel_case (s : String) : String :=
  let cs1 := stripLocalizeMark s.toList
  let cs2 := stripSuffixWs axDescriptionLit cs1
  let cs3 := stripSuffixWs windowManagementLit cs2
  let cs4 := cs3.map (fun c => if c = '/' || c = '-' then ' ' else c)
  match splitWs cs4 with
  | [] => ""
  | w :: ws => String.mk ((pyLower w ++ ws.flatMap pyCapitalize).filter isAsciiAlnum)

/-! ## Raw document model

A raw plist element is a dict of optional scalar attributes plus an
optional `elements` list of child dicts.  `hasElements` records whether
the key `elements` is present at all (Python distinguishes `'elements' in
elem` from the value `elem.get('elements', [])`); when it is `false` the
`children` list is never consulted. -/

/-- The scalar attributes of one raw plist element. -/
structure NodeAttrs where
  name : Option String := none
  node_class : Option String := none
  sybmolichotkey : Option Int := none
  slow_sybmolichotkey : Option Int := none
  identifier : Option String := none
  key : Option String := none
  modifier : Option Int := none
  charKey : Option String := none
  enabled : Option Bool := none
  hasElements : Bool := false
deriving DecidableEq, Repr

/-- A raw plist element: attributes plus child elements. -/
inductive RawNode where
  | mk (attrs : NodeAttrs) (children : List RawNode)

/-- The attribute record of a raw element. -/
def RawNode.attrs : RawNode → NodeAttrs
  | .mk a _ => a

/-- The raw child list (only meaningful when `hasElements` is set). -/
def RawNode.children : RawNode → List RawNode
  | .mk _ cs => cs

/-- `element.get('name', '')`. -/
def RawNode.nameD (e : RawNode) : String := e.attrs.name.getD ""

/-- `element.get('node_class', '')`. -/
def RawNode.nodeClassD (e : RawNode) : String := e.attrs.node_class.getD ""

/-- `element.get('identifier', '')`. -/
def RawNode.identifierD (e : RawNode) : String := e.attrs.identifier.getD ""

/-- `element.get('elements', [])`. -/
def RawNode.elementsVal (e : RawNode) : List RawNode :=
  if e.attrs.hasElements then e.children else []

mutual

/-- Number of raw elements in a subtree (termination measure). -/
def RawNode.size : RawNode → Nat
  | .mk _ cs => 1 + RawNode.sizeList cs

/-- Weight of a raw forest (termination measure; each cons adds one). -/
def RawNode.sizeList : List RawNode → Nat
  | [] => 0
  | c :: cs => 1 + RawNode.size c + RawNode.sizeList cs

end

theorem RawNode.size_pos (e : RawNode) : 0 < e.size := by
  cases e with
  | mk a cs => simp only [RawNode.size]; omega

theorem RawNode.sizeList_elementsVal_lt (e : RawNode) :
    RawNode.sizeList e.elementsVal < e.size := by
  cases e with
  | mk a cs =>
    simp only [RawNode.elementsVal, RawNode.size, RawNode.attrs, RawNode.children]
    split
    · omega
    · simp only [RawNode.sizeList]; omega

theorem RawNode.sizeList_cons (c : RawNode) (cs : List RawNode) :
    RawNode.sizeList (c :: cs) = 1 + c.size + RawNode.sizeList cs := rfl

/-! ## Normalized output model

`parse_shortcut_element` returns either a shortcut dict or (for container
children) a group dict; inside a group's `shortcuts` mapping the two kinds
share one namespace, so an entry is a sum of the two. -/

/-- A normalized shortcut dict as built by `parse_shortcut_element`
(absent optional keys are `none`). -/
structure Shortcut where
  id : Int
  name : String
  nixName : String
  defaultKey : Option String := none
  defaultModifier : Option Int := none
  defaultCharKey : Option String := none
  defaultEnabled : Option Bool := none
  slowId : Option Int := none
  identifier : Option String := none
deriving DecidableEq, Repr

mutual

/-- An entry of a group's `shortcuts` mapping: a plain shortcut dict or a
nested group dict (they share one namespace in the source format). -/
inductive Entry where
  | shortcut (s : Shortcut) : Entry
  | group (g : Grp) : Entry

/-- A normalized group dict as built by `parse_group`. -/
inductive Grp where
  | mk (name nixName identifier : String) (shortcuts : List (String × Entry)) : Grp

end

/-- The `name` field of a group dict. -/
def Grp.name : Grp → String
  | .mk n _ _ _ => n

/-- The `nixName` field of a group dict. -/
def Grp.nixName : Grp → String
  | .mk _ n _ _ => n

/-- The `identifier` field of a group dict. -/
def Grp.identifier : Grp → String
  | .mk _ _ i _ => i

/-- The `shortcuts` mapping of a group dict. -/
def Grp.shortcuts : Grp → List (String × Entry)
  | .mk _ _ _ sc => sc

/-- A normalized category dict as built by `parse_category`; empty
`shortcuts`/`subgroups` lists model the keys being omitted. -/
structure Category where
  name : String
  nixName : String
  identifier : String
  shortcuts : List (String × Shortcut)
  subgroups : List (String × Grp)

/-- Python-dict assignment `m[k] = v` on an insertion-ordered mapping:
overwrite in place if the key exists, otherwise append. -/
def dictInsert {α : Type} : List (String × α) → String → α → List (String × α)
  | [], k, v => [(k, v)]
  | (k', v') :: rest, k, v =>
    if k' = k then (k, v) :: rest else (k', v') :: dictInsert rest k v

/-! ## The hierarchy builder (`parse-shortcuts.py`)

`parse_shortcut_element` and `parse_group` are mutually recursive (a
container child of a group is itself parsed as a group);
`parse_group_elems` is the loop body of `parse_group` building the
`shortcuts` dict. -/

mutual

/-- `parse_shortcut_element` from `parse-shortcuts.py`: discard nameless and
display-only elements; with a hotkey id build a shortcut dict copying the
optional fields; with no hotkey id but a non-empty `elements` list fall
through to `parse_group` on the same element. -/
def parse_shortcut_element (e : RawNode) : Option Entry :=
  if e.nameD = "" then none
  else if e.nodeClassD = "DisplayOnlyNode" then none
  else
    match e.attrs.sybmolichotkey with
    | none =>
      if (e.elementsVal).isEmpty then none
      else (parse_group e).map Entry.group
    | some hid =>
      some (Entry.shortcut
        { id := hid
          name := clean_name e.nameD
          nixName := to_camel_case e.nameD
          defaultKey := e.attrs.key
          defaultModifier := e.attrs.modifier
          defaultCharKey := e.attrs.charKey
          defaultEnabled := e.attrs.enabled
          slowId := e.attrs.slow_sybmolichotkey
          identifier := e.attrs.identifier })
termination_by 3 * e.size + 2
decreasing_by
  omega

/-- `parse_group` from `parse-shortcuts.py`: discard when the name or the
`elements` list is empty, walk the children once, and discard when the
resulting `shortcuts` dict is empty. -/
def parse_group (g : RawNode) : Option Grp :=
  if g.nameD = "" then none
  else if (g.elementsVal).isEmpty then none
  else if (parse_group_elems g.elementsVal []).isEmpty then none
  else some (Grp.mk (clean_name g.nameD) (to_camel_case g.nameD) g.identifierD
    (parse_group_elems g.elementsVal []))
termination_by 3 * g.size + 1
decreasing_by
  all_goals have h := RawNode.sizeList_elementsVal_lt g
  all_goals omega

/-- The `for elem in elements` loop of `parse_group`: a parsed child that is
a nested group is stored under its `nixName` unconditionally; a parsed
child that is a plain shortcut is stored only when its `nixName` is
non-empty; discarded children contribute nothing. -/
def parse_group_elems (es : List RawNode) (acc : List (String × Entry)) :
    List (String × Entry) :=
  match es with
  | [] => acc
  | e :: rest =>
    match parse_shortcut_element e with
    | none => parse_group_elems rest acc
    | some (Entry.group grp) =>
      parse_group_elems rest (dictInsert acc grp.nixName (Entry.group grp))
    | some (Entry.shortcut s) =>
      if s.nixName ≠ "" then parse_group_elems rest (dictInsert acc s.nixName (Entry.shortcut s))
      else parse_group_elems rest acc
termination_by 3 * RawNode.sizeList es + 3
decreasing_by
  all_goals simp only [RawNode.sizeList_cons]
  all_goals omega

end

/-- The `for elem in elements` loop of `parse_category`: a child with an
`elements` key and no `sybmolichotkey` key goes to `parse_group` and, when
its `nixName` is non-empty, into `subgroups`; any other child goes to
`parse_shortcut_element` and, when it yields a dict with an `id` key and a
non-empty `nixName`, into `shortcuts`. -/
def parse_category_elems :
    List RawNode → List (String × Shortcut) → List (String × Grp) →
    List (String × Shortcut) × List (String × Grp)
  | [], sc, sg => (sc, sg)
  | e :: rest, sc, sg =>
    if e.attrs.hasElements ∧ e.attrs.sybmolichotkey = none then
      match parse_group e with
      | some grp =>
        if grp.nixName ≠ "" then
          parse_category_elems rest sc (dictInsert sg grp.nixName grp)
        else parse_category_elems rest sc sg
      | none => parse_category_elems rest sc sg
    else
      match parse_shortcut_element e with
      | some (Entry.shortcut s) =>
        if s.nixName ≠ "" then
          parse_category_elems rest (dictInsert sc s.nixName s) sg
        else parse_category_elems rest sc sg
      | _ => parse_category_elems rest sc sg

/-- `parse_category` from `parse-shortcuts.py`: discard a top-level element
lacking a non-empty `name` or `identifier`; otherwise walk its children
into `shortcuts` and `subgroups` and emit the category dict (empty
mappings model the keys being omitted from the dict). -/
def parse_category (c : RawNode) : Option Category :=
  if c.nameD = "" || c.identifierD = "" then none
  else some
    { name := clean_name c.nameD
      nixName := to_camel_case c.nameD
      identifier := c.identifierD
      shortcuts := (parse_category_elems c.elementsVal [] []).1
      subgroups := (parse_category_elems c.elementsVal [] []).2 }

/-- The `for category in data` loop of `main` in `parse-shortcuts.py`:
parsed categories with a non-empty `nixName` are inserted into the
top-level `categories` dict in document order. -/
def build_categories_aux : List RawNode → List (String × Category) → List (String × Category)
  | [], acc => acc
  | c :: rest, acc =>
    match parse_category c with
    | some cat =>
      if cat.nixName ≠ "" then build_categories_aux rest (dictInsert acc cat.nixName cat)
      else build_categories_aux rest acc
    | none => build_categories_aux rest acc

/-- The normalized tree built by `main` in `parse-shortcuts.py` from a raw
document (the top-level list of category elements). -/
def build_categories (doc : List RawNode) : List (String × Category) :=
  build_categories_aux doc []

/-- The full output structure written by `main` in `parse-shortcuts.py`. -/
structure BuildOutput where
  version : String
  generatedFrom : String
  note : String
  categories : List (String × Category)

/-- The output dict of `main` in `parse-shortcuts.py`, with its fixed
provenance fields and the built category mapping. -/
def build_output (doc : List RawNode) : BuildOutput :=
  { version := "macOS 15.x (Sequoia)"
    generatedFrom := "DefaultShortcutsTable.xml"
    note := "Generated by parse-shortcuts.py. Do not edit manually."
    categories := build_categories doc }

/-! ## The tree renderer (`generate-tree.py`)

The renderer reads the persisted JSON back as duck-typed dicts, so its
input model is permissive: every field it accesses with `.get` is
optional, and the `dynamic` flag (absent from the builder's output but
read by the renderer) is a plain boolean. -/

/-- A shortcut entry as the renderer reads it (`name`/`id` via `.get`,
`dynamic` via truthiness). -/
structure RShortcut where
  name : Option String := none
  id : Option Int := none
  dynamic : Bool := false
deriving DecidableEq, Repr

/-- A subgroup entry as the renderer reads it. -/
structure RGroup where
  name : Option String := none
  shortcuts : List (String × RShortcut) := []
deriving DecidableEq, Repr

/-- A category entry as the renderer reads it (`shortcuts`/`subgroups`
default to empty mappings). -/
structure RCategory where
  name : Option String := none
  shortcuts : List (String × RShortcut) := []
  subgroups : List (String × RGroup) := []
deriving DecidableEq, Repr

/-- The loaded JSON document as the renderer reads it. -/
structure RData where
  version : Option String := none
  dynamicShortcuts : Bool := false
  categories : List (String × RCategory) := []
deriving DecidableEq, Repr

/-- `f" (ID: {...})" if include_ids and 'id' in shortcut_data else ""`. -/
def idAnn (ids : Bool) (sd : RShortcut) : String :=
  match sd.id with
  | some n => if ids then " (ID: " ++ toString n ++ ")" else ""
  | none => ""

/-- `" [dynamic]" if include_dynamic and shortcut_data.get('dynamic') else ""`
(text format; the markdown format uses a backquoted variant). -/
def dynAnn (dynMark : Bool) (sd : RShortcut) : String :=
  if dynMark && sd.dynamic then " [dynamic]" else ""

/-- The fixed part of one text-format shortcut line, before the optional
id and dynamic annotations. -/
def textLineStem (indent k : String) (sd : RShortcut) : String :=
  indent ++ "- `" ++ k ++ "` - **" ++ sd.name.getD k ++ "**"

/-- One shortcut line of `generate_text_tree`. -/
def textShortcutLine (indent k : String) (sd : RShortcut) (ids dynMark : Bool) : String :=
  textLineStem indent k sd ++ idAnn ids sd ++ dynAnn dynMark sd

/-- `generate_text_tree` from `generate-tree.py`, as its list of lines
(the script joins them with newlines): a fixed header, then per category
a header line, its direct shortcut lines, and per subgroup a header line
followed by the subgroup's shortcut lines. -/
def generate_text_tree (d : RData) (ids dynMark : Bool) : List String :=
  "`darwin.symbolicHotkeys`" ::
  d.categories.flatMap (fun ckv =>
    ("  - `" ++ ckv.1 ++ "` (**" ++ ckv.2.name.getD ckv.1 ++ "**)") ::
    (ckv.2.shortcuts.map (fun skv => textShortcutLine "    " skv.1 skv.2 ids dynMark) ++
     ckv.2.subgroups.flatMap (fun gkv =>
       ("    - `" ++ gkv.1 ++ "` (**" ++ gkv.2.name.getD gkv.1 ++ "**)") ::
       gkv.2.shortcuts.map (fun skv => textShortcutLine "      " skv.1 skv.2 ids dynMark))))

/-- The dynamic annotation of the markdown format:
`" `[dynamic]`" if include_dynamic and shortcut_data.get('dynamic') else ""`. -/
def dynAnnMd (dynMark : Bool) (sd : RShortcut) : String :=
  if dynMark && sd.dynamic then " `[dynamic]`" else ""

/-- One shortcut line of `generate_markdown_tree` (`indent` is two spaces
for direct shortcuts, four for subgroup shortcuts). -/
def mdShortcutLine (indent k : String) (sd : RShortcut) (ids dynMark : Bool) : String :=
  indent ++ "- `" ++ k ++ "` - " ++ sd.name.getD k ++ idAnn ids sd ++ dynAnnMd dynMark sd

/-- The `total_shortcuts` loop of `generate_markdown_tree`: direct
shortcut count plus the count of every subgroup's shortcuts, summed over
all categories. -/
def statsTotal : List (String × RCategory) → Nat
  | [] => 0
  | ckv :: rest =>
    ckv.2.shortcuts.length +
      (ckv.2.subgroups.map (fun gkv => gkv.2.shortcuts.length)).sum +
      statsTotal rest

/-- The `dynamic_count` loop of `generate_markdown_tree`. -/
def statsDynamic : List (String × RCategory) → Nat
  | [] => 0
  | ckv :: rest =>
    (ckv.2.shortcuts.filter (fun skv => skv.2.dynamic)).length +
      (ckv.2.subgroups.map (fun gkv =>
        (gkv.2.shortcuts.filter (fun skv => skv.2.dynamic)).length)).sum +
      statsDynamic rest

/-- The per-category body lines of `generate_markdown_tree`: the category
header line, its direct shortcut lines, and per subgroup a header line
followed by the subgroup's shortcut lines. -/
def mdCategoryLines (ids dynMark : Bool) (ckv : String × RCategory) : List String :=
  ("- **" ++ ckv.1 ++ "** (" ++ ckv.2.name.getD ckv.1 ++ ")") ::
  (ckv.2.shortcuts.map (fun skv => mdShortcutLine "  " skv.1 skv.2 ids dynMark) ++
   ckv.2.subgroups.flatMap (fun gkv =>
     ("  - **" ++ gkv.1 ++ "** (" ++ gkv.2.name.getD gkv.1 ++ ")") ::
     gkv.2.shortcuts.map (fun skv => mdShortcutLine "    " skv.1 skv.2 ids dynMark)))

/-- Exactly the shortcut entry lines that `generate_markdown_tree`
enumerates (the category and subgroup header lines excluded). -/
def mdShortcutLinesOnly (d : RData) (ids dynMark : Bool) : List String :=
  d.categories.flatMap (fun ckv =>
    ckv.2.shortcuts.map (fun skv => mdShortcutLine "  " skv.1 skv.2 ids dynMark) ++
    ckv.2.subgroups.flatMap (fun gkv =>
      gkv.2.shortcuts.map (fun skv => mdShortcutLine "    " skv.1 skv.2 ids dynMark)))

/-- `generate_markdown_tree` from `generate-tree.py`, as its list of
lines: document header, optional dynamic note, body, and the trailing
statistics block recomputed from the category mapping. -/
def generate_markdown_tree (d : RData) (ids dynMark : Bool) : List String :=
  ["# darwin-symbolic-hotkeys Options Tree",
   "",
   "Generated from version: " ++ d.version.getD "unknown",
   "Total categories: " ++ toString d.categories.length,
   ""] ++
  (if d.dynamicShortcuts then
    ["> **Note**: Shortcuts marked with `[dynamic]` are dynamically created by macOS.", ""]
   else []) ++
  ["## darwin.symbolicHotkeys", ""] ++
  d.categories.flatMap (mdCategoryLines ids dynMark) ++
  ["",
   "## Statistics",
   "",
   "- Total shortcuts: " ++ toString (statsTotal d.categories),
   "- Dynamic shortcuts: " ++ toString (statsDynamic d.categories),
   "- Categories: " ++ toString d.categories.length]

/-! ## Name invariants over the normalized tree -/

mutual

/-- Claim C4's requirement on one entry of a group's `shortcuts` mapping:
shortcuts and nested groups alike carry a non-empty display name, and the
requirement holds recursively inside nested groups. -/
def entryNamesStrict : Entry → Bool
  | .shortcut s => decide (s.name ≠ "")
  | .group (.mk n _ _ sc) => decide (n ≠ "") && entriesNamesStrict sc

/-- Claim C4's requirement on a whole `shortcuts` mapping. -/
def entriesNamesStrict : List (String × Entry) → Bool
  | [] => true
  | kv :: rest => entryNamesStrict kv.2 && entriesNamesStrict rest

end

mutual

/-- The amended requirement on one entry of a group's `shortcuts` mapping:
stored shortcuts carry a non-empty display name, and the requirement
recurses into nested groups, whose own display name may be empty. -/
def entryNamesOk : Entry → Bool
  | .shortcut s => decide (s.name ≠ "")
  | .group (.mk _ _ _ sc) => entriesNamesOk sc

/-- The amended requirement on a whole `shortcuts` mapping. -/
def entriesNamesOk : List (String × Entry) → Bool
  | [] => true
  | kv :: rest => entryNamesOk kv.2 && entriesNamesOk rest

end

/-- Claim C4's requirement on a subgroup stored in a category. -/
def grpNamesStrict (g : Grp) : Bool :=
  decide (g.name ≠ "") && entriesNamesStrict g.shortcuts

/-- Claim C4's requirement on an emitted category: non-empty `name` and
`identifier`, non-empty names on all direct shortcuts, and recursively on
every subgroup. -/
def catNamesStrict (c : Category) : Bool :=
  decide (c.name ≠ "") && decide (c.identifier ≠ "") &&
    c.shortcuts.all (fun kv => decide (kv.2.name ≠ "")) &&
    c.subgroups.all (fun kv => grpNamesStrict kv.2)

/-- Claim C4 as stated, over a whole normalized tree. -/
def treeNamesStrict (t : List (String × Category)) : Bool :=
  t.all (fun kv => catNamesStrict kv.2)

/-- The amended requirement on a subgroup stored in a category (its own
name is still non-empty; only entries nested deeper may lack one). -/
def grpNamesOk (g : Grp) : Bool :=
  decide (g.name ≠ "") && entriesNamesOk g.shortcuts

/-- The amended requirement on an emitted category. -/
def catNamesOk (c : Category) : Bool :=
  decide (c.name ≠ "") && decide (c.identifier ≠ "") &&
    c.shortcuts.all (fun kv => decide (kv.2.name ≠ "")) &&
    c.subgroups.all (fun kv => grpNamesOk kv.2)

/-- The amended claim C4, over a whole normalized tree. -/
def treeNamesOk (t : List (String × Category)) : Bool :=
  t.all (fun kv => catNamesOk kv.2)

/-! ## Claim C1: the key-synthesis pipeline, spelled out from the spec -/

/-- Removal of a trailing literal `suf` exactly as claim C1 words it:
strip the suffix "if present at the end", nothing else. -/
def stripLiteralSuffix (suf cs : List Char) : List Char :=
  if suf.isSuffixOf cs then cs.take (cs.length - suf.length) else cs

/-- Claim C1's treatment of a later word: "uppercase its first character
while leaving the rest of that word as-is". -/
def upFirstKeepRest : List Char → List Char
  | [] => []
  | c :: rest => Char.toUpper c :: rest

/-- `synthesizeKey` exactly as claim C1 states it: `cleanDisplayName`,
strip the literal trailing suffixes `" (AX_DESCRIPTION)"` and
`" (window management)"` if present at the end, replace `/` and `-` by
spaces, split on whitespace runs, lower-case the first word, uppercase
only the first character of each later word leaving its rest as-is,
concatenate, and strip every character that is not an ASCII letter or
digit. -/
def synthesizeKeyClaim (s : String) : String :=
  let cs1 := (clean_name s).toList
  let cs2 := stripLiteralSuffix " (AX_DESCRIPTION)".toList cs1
  let cs3 := stripLiteralSuffix " (window management)".toList cs2
  let cs4 := cs3.map (fun c => if c = '/' || c = '-' then ' ' else c)
  match splitWs cs4 with
  | [] => ""
  | w :: ws => String.mk ((pyLower w ++ ws.flatMap upFirstKeepRest).filter isAsciiAlnum)

/-- Removal of trailing whitespace (used by the amended suffix strip). -/
def rstripWs (cs : List Char) : List Char := (cs.reverse.dropWhile pyIsSpace).reverse

/-- The amended suffix strip: when the string ends with the parenthesised
literal itself — or ends with the literal followed by exactly one final
newline — remove the literal together with every whitespace character
immediately before it (the final newline, when present, stays). -/
def stripAnnotWs (suf cs : List Char) : List Char :=
  if suf.isSuffixOf cs then rstripWs (cs.take (cs.length - suf.length))
  else if cs.getLast? = some '\n' ∧ suf.isSuffixOf cs.dropLast then
    rstripWs (cs.dropLast.take (cs.dropLast.length - suf.length)) ++ ['\n']
  else cs

/-- `synthesizeKey` as amended: like `synthesizeKeyClaim`, but the
annotation suffixes are the bare parenthesised literals, counted as
trailing also when only a single final newline follows them, stripped
together with any immediately preceding whitespace, and each later word
has its first character upper-cased and the rest lower-cased. -/
def synthesizeKeyAmended (s : String) : String :=
  let cs1 := (clean_name s).toList
  let cs2 := stripAnnotWs axDescriptionLit cs1
  let cs3 := stripAnnotWs windowManagementLit cs2
  let cs4 := cs3.map (fun c => if c = '/' || c = '-' then ' ' else c)
  match splitWs cs4 with
  | [] => ""
  | w :: ws => String.mk ((pyLower w ++ ws.flatMap pyCapitalize).filter isAsciiAlnum)

theorem stripSuffixWs_eq_stripAnnotWs (suf cs : List Char) :
    stripSuffixWs suf cs = stripAnnotWs suf cs := by
  have core : ∀ ys : List Char, suf.isSuffixOf ys = true →
      ((ys.reverse.drop suf.length).dropWhile pyIsSpace).reverse =
        rstripWs (ys.take (ys.length - suf.length)) := by
    intro ys h
    rw [rstripWs]
    rw [List.isSuffixOf_iff_suffix] at h
    obtain ⟨t, ht⟩ := h
    subst ht
    have h1 : (t ++ suf).reverse.drop suf.length = t.reverse := by
      rw [List.reverse_append, List.drop_left' (by simp)]
    have h2 : (t ++ suf).take ((t ++ suf).length - suf.length) = t := by
      rw [List.length_append]
      exact List.take_left' (by omega)
    rw [h1, h2]
  unfold stripSuffixWs stripAnnotWs
  rw [List.tail_reverse, List.head?_reverse]
  have hc1 : suf.reverse.isPrefixOf cs.reverse = suf.isSuffixOf cs := rfl
  have hc2 : suf.reverse.isPrefixOf cs.dropLast.reverse = suf.isSuffixOf cs.dropLast := rfl
  rw [hc1, hc2]
  by_cases h : suf.isSuffixOf cs
  · rw [if_pos h, if_pos h]
    exact core cs h
  · rw [if_neg h, if_neg h]
    by_cases h2 : cs.getLast? = some '\n' ∧ suf.isSuffixOf cs.dropLast
    · rw [if_pos h2, if_pos h2, List.reverse_cons, core cs.dropLast h2.2]
    · rw [if_neg h2, if_neg h2]

/-- C1, counterexample: on `"a BC(AX_DESCRIPTION)"` the code strips the
`(AX_DESCRIPTION)` annotation although no space precedes it, and
`str.capitalize()` lower-cases the tail of the second word, so the code
yields `"aBc"` while the claimed pipeline yields `"aBCAXDESCRIPTION"`. -/
theorem c1_counterexample :
    to_camel_case "a BC(AX_DESCRIPTION)" ≠
      synthesizeKeyClaim "a BC(AX_DESCRIPTION)" := by decide

/-- C1 (amended): for every input string, `to_camel_case` equals the
pipeline that applies `clean_name`, strips a trailing `(AX_DESCRIPTION)`
and then a trailing `(window management)` — each counted as trailing
when it ends the string or is followed only by a single final newline,
and each removed together with any immediately preceding whitespace,
keeping that final newline — then replaces `/` and `-` by spaces, splits
on whitespace runs, lower-cases the first word, upper-cases the first
character and lower-cases the rest of each later word, concatenates, and
strips all non-ASCII-alphanumeric characters. -/
theorem c1_amended_key_pipeline (s : String) :
    to_camel_case s = synthesizeKeyAmended s := by
  unfold to_camel_case synthesizeKeyAmended
  simp only [stripSuffixWs_eq_stripAnnotWs]
  rfl

/-! ## Claim C2: idempotence of `clean_name` -/

/-- C2, counterexample: a doubled marker is stripped one layer at a time,
so `clean_name` is not idempotent. -/
theorem c2_counterexample :
    clean_name (clean_name "DO_NOT_LOCALIZE: DO_NOT_LOCALIZE: x") ≠
      clean_name "DO_NOT_LOCALIZE: DO_NOT_LOCALIZE: x" := by decide

/-- C2 (amended): `clean_name` is idempotent on every string whose cleaned
form does not itself start with the `DO_NOT_LOCALIZE:` marker. -/
theorem c2_clean_name_idempotent_amended (s : String)
    (h : dnlMarker.isPrefixOf (clean_name s).toList = false) :
    clean_name (clean_name s) = clean_name s := by
  show String.mk (stripLocalizeMark (clean_name s).toList) = clean_name s
  rw [stripLocalizeMark, h]
  rfl

/-- C2, witness for the amended theorem at a concrete input. -/
theorem c2_witness :
    dnlMarker.isPrefixOf (clean_name "DO_NOT_LOCALIZE: hello").toList = false ∧
      clean_name (clean_name "DO_NOT_LOCALIZE: hello") =
        clean_name "DO_NOT_LOCALIZE: hello" :=
  ⟨by decide, c2_clean_name_idempotent_amended "DO_NOT_LOCALIZE: hello" (by decide)⟩

/-! ## Claim C3: display-only nodes -/

/-- A leaf child with a hotkey id, used inside the C3 counterexample. -/
def c3leaf : RawNode :=
  RawNode.mk { name := some "C", sybmolichotkey := some 1 } []

/-- A display-only container child: `node_class` is `DisplayOnlyNode`, it
has an `elements` list and no hotkey id. -/
def c3disp : RawNode :=
  RawNode.mk
    { name := some "B", node_class := some "DisplayOnlyNode", hasElements := true }
    [c3leaf]

/-- A top-level category whose only child is the display-only container. -/
def c3cat : RawNode :=
  RawNode.mk { name := some "A", identifier := some "a", hasElements := true } [c3disp]

/-- C3, counterexample: a child whose `node_class` is `DisplayOnlyNode`
but which has an `elements` list and no hotkey id is routed straight to
`parse_group`, which never looks at `node_class`, so the display-only
node contributes a subgroup to the emitted category. -/
theorem c3_counterexample :
    c3disp.nodeClassD = "DisplayOnlyNode" ∧
      parse_category c3cat =
        some
          { name := "A"
            nixName := "a"
            identifier := "a"
            shortcuts := []
            subgroups := [("b", Grp.mk "B" "b" ""
              [("c", Entry.shortcut { id := 1, name := "C", nixName := "c" })])] } := by
  constructor
  · decide
  · simp +decide [parse_category, parse_category_elems, parse_shortcut_element,
      parse_group, parse_group_elems, dictInsert, c3cat, c3disp, c3leaf,
      RawNode.nameD, RawNode.nodeClassD, RawNode.identifierD,
      RawNode.elementsVal, RawNode.attrs, RawNode.children]

/-- C3 (amended): every raw node that reaches `parse_shortcut_element`
and whose `node_class` is the display-only marker is discarded — in
particular every child walked inside group parsing contributes nothing —
but a category child with an `elements` key and no hotkey id bypasses
`parse_shortcut_element` and may still contribute a subgroup. -/
theorem c3_display_only_discarded_amended (e : RawNode)
    (h : e.nodeClassD = "DisplayOnlyNode") :
    parse_shortcut_element e = none ∧
      ∀ (es : List RawNode) (acc : List (String × Entry)),
        parse_group_elems (e :: es) acc = parse_group_elems es acc := by
  have h1 : parse_shortcut_element e = none := by
    rw [parse_shortcut_element]
    by_cases hn : e.nameD = ""
    · simp [hn]
    · simp [hn, h]
  refine ⟨h1, fun es acc => ?_⟩
  rw [parse_group_elems]
  simp [h1]

/-- C3, witness for the amended theorem at the display-only node of the
counterexample. -/
theorem c3_witness :
    parse_shortcut_element c3disp = none ∧
      parse_group_elems [c3disp] [] = parse_group_elems [] [] := by
  have h := c3_display_only_discarded_amended c3disp (by decide)
  exact ⟨h.1, h.2 [] []⟩

/-! ## Claim C5: scenario A -/

/-- The raw category of scenario A. -/
def scenarioA : RawNode :=
  RawNode.mk
    { name := some "Mission Control"
      identifier := some "com.apple.symbolichotkeys.menu"
      hasElements := true }
    [RawNode.mk
      { name := some "DO_NOT_LOCALIZE: Turn Do Not Disturb On/Off"
        sybmolichotkey := some 64
        key := some "d"
        modifier := some 1048576 } []]

/-- C5: parsing the scenario-A category yields the tree with exactly one
category under key `missionControl`, holding exactly one shortcut under
key `turnDoNotDisturbOnOff` with name `"Turn Do Not Disturb On/Off"`,
id 64, defaultKey `"d"` and defaultModifier 1048576. -/
theorem c5_scenario_a :
    build_categories [scenarioA] =
      [("missionControl",
        { name := "Mission Control"
          nixName := "missionControl"
          identifier := "com.apple.symbolichotkeys.menu"
          shortcuts := [("turnDoNotDisturbOnOff",
            { id := 64
              name := "Turn Do Not Disturb On/Off"
              nixName := "turnDoNotDisturbOnOff"
              defaultKey := some "d"
              defaultModifier := some 1048576 })]
          subgroups := [] })] := by
  simp +decide [build_categories, build_categories_aux, parse_category,
    parse_category_elems, parse_shortcut_element, parse_group,
    parse_group_elems, dictInsert, scenarioA, RawNode.nameD, RawNode.nodeClassD,
    RawNode.identifierD, RawNode.elementsVal, RawNode.attrs, RawNode.children]

/-! ## Claim C6: category emission -/

/-- The category that `parse_category` emits for a surviving top-level
element (empty `shortcuts`/`subgroups` model the keys being omitted). -/
def mkCat (c : RawNode) : Category :=
  { name := clean_name c.nameD
    nixName := to_camel_case c.nameD
    identifier := c.identifierD
    shortcuts := (parse_category_elems c.elementsVal [] []).1
    subgroups := (parse_category_elems c.elementsVal [] []).2 }

/-- A top-level element with non-empty name and identifier whose
synthesized key is empty. -/
def c6node : RawNode :=
  RawNode.mk { name := some "///", identifier := some "x" } []

/-- C6, counterexample: a top-level node with a non-empty name and a
non-empty identifier whose synthesized key is empty is dropped by the
top-level loop, so no category is emitted for it. -/
theorem c6_counterexample :
    c6node.nameD ≠ "" ∧ c6node.identifierD ≠ "" ∧ build_categories [c6node] = [] := by
  refine ⟨by decide, by decide, ?_⟩
  simp +decide [build_categories, build_categories_aux, parse_category,
    parse_category_elems, c6node, RawNode.nameD, RawNode.identifierD,
    RawNode.elementsVal, RawNode.attrs, RawNode.children, to_camel_case,
    clean_name]

/-- C6 (amended): a top-level node lacking a non-empty name or identifier
is never parsed into a category, hence absent from the tree regardless of
its children; a node with both is parsed into a category even when empty,
but it reaches the tree only when additionally its synthesized key is
non-empty — when the key is empty the top-level loop drops it. -/
theorem c6_category_emission_amended (c : RawNode) :
    ((c.nameD = "" ∨ c.identifierD = "") →
        parse_category c = none ∧
          ∀ (ds : List RawNode) (acc : List (String × Category)),
            build_categories_aux (c :: ds) acc = build_categories_aux ds acc) ∧
      (c.nameD ≠ "" → c.identifierD ≠ "" →
        parse_category c = some (mkCat c) ∧
          (to_camel_case c.nameD = "" → build_categories [c] = []) ∧
          (to_camel_case c.nameD ≠ "" →
            build_categories [c] = [(to_camel_case c.nameD, mkCat c)])) := by
  constructor
  · intro h
    have hnone : parse_category c = none := by
      rw [parse_category]
      rcases h with h | h <;> simp [h]
    refine ⟨hnone, fun ds acc => ?_⟩
    rw [build_categories_aux]
    simp [hnone]
  · intro h1 h2
    have hp : parse_category c = some (mkCat c) := by
      rw [parse_category]
      simp [h1, h2, mkCat]
    refine ⟨hp, ?_, ?_⟩
    · intro hk
      simp [build_categories, build_categories_aux, hp, mkCat, hk]
    · intro hk
      simp [build_categories, build_categories_aux, hp, mkCat, hk, dictInsert]

/-- C6, witness for the amended theorem at a concrete surviving input. -/
theorem c6_witness :
    parse_category (RawNode.mk { name := some "Hi", identifier := some "x" } []) =
        some (mkCat (RawNode.mk { name := some "Hi", identifier := some "x" } [])) ∧
      build_categories [RawNode.mk { name := some "Hi", identifier := some "x" } []] =
        [("hi", mkCat (RawNode.mk { name := some "Hi", identifier := some "x" } []))] := by
  have h := (c6_category_emission_amended
    (RawNode.mk { name := some "Hi", identifier := some "x" } [])).2
    (by decide) (by decide)
  exact ⟨h.1, h.2.2 (by decide)⟩

/-! ## Claim C9: determinism of the build -/

/-- C9: the build transform is a pure function of the raw document — two
runs on the same document yield the identical output structure (and hence
identical serialized bytes); there is no dependence on anything else. -/
theorem c9_determinism (doc : List RawNode) :
    build_output doc = build_output doc ∧
      (build_output doc).categories = build_categories doc := ⟨rfl, rfl⟩

/-! ## Claim C10: the shared namespace inside a group -/

/-- A leaf child with a hotkey id, nested two levels down. -/
def c10inner : RawNode :=
  RawNode.mk { name := some "S", sybmolichotkey := some 1 } []

/-- A container child whose name is the bare `DO_NOT_LOCALIZE:` marker
plus whitespace, so both its cleaned name and its synthesized key are
empty. -/
def c10marker : RawNode :=
  RawNode.mk { name := some "DO_NOT_LOCALIZE: ", hasElements := true } [c10inner]

/-- A group whose only child is the marker-named container. -/
def c10outer : RawNode :=
  RawNode.mk { name := some "G", hasElements := true } [c10marker]

/-- The nested group dict built from the marker-named container. -/
def c10markerGrp : Grp :=
  Grp.mk "" "" "" [("s", Entry.shortcut { id := 1, name := "S", nixName := "s" })]

/-- A leaf with a hotkey id whose synthesized key is empty. -/
def c10leafEmptyKey : RawNode :=
  RawNode.mk { name := some "///", sybmolichotkey := some 5 } []

/-- C10: in group parsing, a plain leaf shortcut is stored only when its
synthesized key is non-empty, while a nested group is stored under its
synthesized key unconditionally — so a nested group whose name consists
of the `DO_NOT_LOCALIZE:` marker alone produces an entry under the empty
key in its parent group's `shortcuts` mapping. -/
theorem c10_group_namespace :
    (∀ (e : RawNode) (s : Shortcut) (es : List RawNode) (acc : List (String × Entry)),
        parse_shortcut_element e = some (Entry.shortcut s) → s.nixName = "" →
          parse_group_elems (e :: es) acc = parse_group_elems es acc) ∧
      (∀ (e : RawNode) (g : Grp) (es : List RawNode) (acc : List (String × Entry)),
          parse_shortcut_element e = some (Entry.group g) →
            parse_group_elems (e :: es) acc =
              parse_group_elems es (dictInsert acc g.nixName (Entry.group g))) ∧
      parse_group c10outer = some (Grp.mk "G" "g" "" [("", Entry.group c10markerGrp)]) := by
  refine ⟨?_, ?_, ?_⟩
  · intro e s es acc h hnix
    rw [parse_group_elems]
    simp [h, hnix]
  · intro e g es acc h
    rw [parse_group_elems]
    simp [h]
  · simp +decide [parse_group, parse_group_elems, parse_shortcut_element,
      dictInsert, c10outer, c10marker, c10inner, c10markerGrp,
      RawNode.nameD, RawNode.nodeClassD, RawNode.identifierD,
      RawNode.elementsVal, RawNode.attrs, RawNode.children]

/-- C10, witness for the two universal parts at concrete inputs: a leaf
with empty synthesized key is skipped, a nested group with empty
synthesized key is stored anyway. -/
theorem c10_witness :
    parse_group_elems [c10leafEmptyKey] [] = parse_group_elems [] [] ∧
      parse_group_elems [c10marker] [] =
        parse_group_elems [] (dictInsert [] "" (Entry.group c10markerGrp)) := by
  constructor
  · refine c10_group_namespace.1 c10leafEmptyKey
      { id := 5, name := "///", nixName := "" } [] [] ?_ rfl
    simp +decide [parse_shortcut_element, c10leafEmptyKey, RawNode.nameD,
      RawNode.nodeClassD, RawNode.elementsVal, RawNode.attrs, RawNode.children,
      to_camel_case, clean_name, stripLocalizeMark, dnlMarker]
  · have h : parse_shortcut_element c10marker = some (Entry.group c10markerGrp) := by
      simp +decide [parse_shortcut_element, parse_group, parse_group_elems,
        dictInsert, c10marker, c10inner, c10markerGrp, RawNode.nameD,
        RawNode.nodeClassD, RawNode.identifierD, RawNode.elementsVal,
        RawNode.attrs, RawNode.children]
    have := c10_group_namespace.2.1 c10marker c10markerGrp [] [] h
    simpa [c10markerGrp] using this

/-! ## Claim C7: statistics consistency -/

theorem length_flatMap_eq_sum {α β : Type} (l : List α) (f : α → List β) :
    (l.flatMap f).length = (l.map (fun a => (f a).length)).sum := by
  induction l with
  | nil => rfl
  | cons a r ih => simp [List.flatMap_cons, ih]

theorem md_subgroup_lines_length (ids dynMark : Bool) (subs : List (String × RGroup)) :
    (subs.flatMap (fun gkv =>
        ("  - **" ++ gkv.1 ++ "** (" ++ gkv.2.name.getD gkv.1 ++ ")") ::
        gkv.2.shortcuts.map (fun skv => mdShortcutLine "    " skv.1 skv.2 ids dynMark))).length =
      subs.length +
        (subs.flatMap (fun gkv =>
          gkv.2.shortcuts.map (fun skv =>
            mdShortcutLine "    " skv.1 skv.2 ids dynMark))).length := by
  induction subs with
  | nil => rfl
  | cons g r ih =>
    simp only [List.flatMap_cons, List.length_append, List.length_cons, ih]
    omega

/-- C7: the total shortcut count of the statistics block equals the sum
over all categories of the direct shortcut count plus each subgroup's
shortcut count, and equals the number of shortcut entry lines the
markdown renderer enumerates (the renderer's body consists of exactly one
header line per category, one per subgroup, and those shortcut lines);
the statistics block reports exactly this number. -/
theorem c7_statistics_consistency (d : RData) (ids dynMark : Bool) :
    statsTotal d.categories =
        (d.categories.map (fun ckv =>
          ckv.2.shortcuts.length +
            (ckv.2.subgroups.map (fun gkv => gkv.2.shortcuts.length)).sum)).sum ∧
      statsTotal d.categories = (mdShortcutLinesOnly d ids dynMark).length ∧
      (d.categories.flatMap (mdCategoryLines ids dynMark)).length =
        d.categories.length +
          (d.categories.map (fun ckv => ckv.2.subgroups.length)).sum +
          (mdShortcutLinesOnly d ids dynMark).length ∧
      ("- Total shortcuts: " ++ toString (statsTotal d.categories)) ∈
        generate_markdown_tree d ids dynMark := by
  refine ⟨?_, ?_, ?_, ?_⟩
  · induction d.categories with
    | nil => rfl
    | cons c r ih => simp [statsTotal, ih]
  · rw [mdShortcutLinesOnly]
    induction d.categories with
    | nil => rfl
    | cons c r ih =>
      simp only [statsTotal, List.flatMap_cons, List.length_append, ih,
        length_flatMap_eq_sum, List.length_map]
  · rw [mdShortcutLinesOnly]
    induction d.categories with
    | nil => rfl
    | cons c r ih =>
      simp only [List.flatMap_cons, List.length_append, List.length_cons,
        List.map_cons, List.sum_cons, mdCategoryLines,
        md_subgroup_lines_length] at ih ⊢
      omega
  · unfold generate_markdown_tree
    simp

/-! ## Claim C8: the showIds toggle of the text renderer -/

/-- The relation between a line rendered with ids and the corresponding
line rendered without: the latter is the former with its (possibly empty)
`" (ID: n)"` annotation removed and nothing else changed. -/
def lineRel (lt lf : String) : Prop :=
  ∃ pre ann suf, lt = pre ++ ann ++ suf ∧ lf = pre ++ suf ∧
    (ann = "" ∨ ∃ n : Int, ann = " (ID: " ++ toString n ++ ")")

theorem lineRel_refl (s : String) : lineRel s s :=
  ⟨"", "", s, rfl, rfl, Or.inl rfl⟩

theorem idAnn_false (sd : RShortcut) : idAnn false sd = "" := by
  cases h : sd.id <;> simp [idAnn, h]

theorem lineRel_shortcut (indent k : String) (sd : RShortcut) (dynMark : Bool) :
    lineRel (textShortcutLine indent k sd true dynMark)
      (textShortcutLine indent k sd false dynMark) := by
  refine ⟨textLineStem indent k sd, idAnn true sd, dynAnn dynMark sd, rfl, ?_, ?_⟩
  · rw [textShortcutLine, idAnn_false, String.append_empty]
  · cases h : sd.id with
    | none => exact Or.inl (by simp [idAnn, h])
    | some n => exact Or.inr ⟨n, by simp [idAnn, h]⟩

theorem forall₂_map_same {α β : Type} {R : β → β → Prop} (f g : α → β)
    (l : List α) (h : ∀ x ∈ l, R (f x) (g x)) :
    List.Forall₂ R (l.map f) (l.map g) := by
  induction l with
  | nil => exact List.Forall₂.nil
  | cons a r ih =>
    exact List.Forall₂.cons (h a (by simp)) (ih fun x hx => h x (by simp [hx]))

theorem forall₂_flatMap_same {α β : Type} {R : β → β → Prop} (f g : α → List β)
    (l : List α) (h : ∀ x ∈ l, List.Forall₂ R (f x) (g x)) :
    List.Forall₂ R (l.flatMap f) (l.flatMap g) := by
  induction l with
  | nil => exact List.Forall₂.nil
  | cons a r ih =>
    rw [List.flatMap_cons, List.flatMap_cons]
    exact List.rel_append (h a (by simp)) (ih fun x hx => h x (by simp [hx]))

/-- C8: rendering the same tree in compact (text) mode with ids disabled
produces the same lines in the same order as with ids enabled, except
that each `" (ID: n)"` annotation is omitted; in particular the line
count is identical. -/
theorem c8_show_ids_toggle (d : RData) (dynMark : Bool) :
    List.Forall₂ lineRel (generate_text_tree d true dynMark)
        (generate_text_tree d false dynMark) ∧
      (generate_text_tree d true dynMark).length =
        (generate_text_tree d false dynMark).length := by
  have h : List.Forall₂ lineRel (generate_text_tree d true dynMark)
      (generate_text_tree d false dynMark) := by
    rw [generate_text_tree, generate_text_tree]
    refine List.Forall₂.cons (lineRel_refl _) ?_
    refine forall₂_flatMap_same _ _ _ fun ckv _ => ?_
    refine List.Forall₂.cons (lineRel_refl _) ?_
    refine List.rel_append ?_ ?_
    · exact forall₂_map_same _ _ _ fun skv _ => lineRel_shortcut _ _ _ _
    · refine forall₂_flatMap_same _ _ _ fun gkv _ => ?_
      refine List.Forall₂.cons (lineRel_refl _) ?_
      exact forall₂_map_same _ _ _ fun skv _ => lineRel_shortcut _ _ _ _
  exact ⟨h, h.length_eq⟩

/-! ## Claim C4: non-empty names in the emitted tree -/

/-- A top-level category wrapping the `c10outer` group, whose nested
group has an empty display name. -/
def c4cat : RawNode :=
  RawNode.mk { name := some "Cat", identifier := some "id", hasElements := true }
    [c10outer]

/-- C4, counterexample: the tree built from `c4cat` contains (inside the
subgroup `g`'s `shortcuts` mapping) a nested group whose display name is
empty, so the claimed invariant fails on it. -/
theorem c4_counterexample :
    treeNamesStrict (build_categories [c4cat]) = false := by
  simp +decide [build_categories, build_categories_aux, parse_category,
    parse_category_elems, parse_shortcut_element, parse_group,
    parse_group_elems, dictInsert, c4cat, c10outer, c10marker, c10inner,
    RawNode.nameD, RawNode.nodeClassD, RawNode.identifierD,
    RawNode.elementsVal, RawNode.attrs, RawNode.children, treeNamesStrict,
    catNamesStrict, grpNamesStrict, entriesNamesStrict, entryNamesStrict]

theorem clean_name_ne_of_camel_ne {s : String} (h : to_camel_case s ≠ "") :
    clean_name s ≠ "" := by
  intro hc
  apply h
  have hl : stripLocalizeMark s.toList = [] := congrArg String.data hc
  unfold to_camel_case
  rw [hl]
  rfl

theorem entryNamesOk_shortcut (s : Shortcut) :
    entryNamesOk (Entry.shortcut s) = decide (s.name ≠ "") := rfl

theorem entryNamesOk_group (g : Grp) :
    entryNamesOk (Entry.group g) = entriesNamesOk g.shortcuts := by
  cases g
  rfl

theorem entriesNamesOk_cons (kv : String × Entry) (rest : List (String × Entry)) :
    entriesNamesOk (kv :: rest) = (entryNamesOk kv.2 && entriesNamesOk rest) := rfl

theorem entriesNamesOk_dictInsert (l : List (String × Entry)) (k : String) (v : Entry)
    (hl : entriesNamesOk l = true) (hv : entryNamesOk v = true) :
    entriesNamesOk (dictInsert l k v) = true := by
  induction l with
  | nil => simp [dictInsert, entriesNamesOk, entriesNamesOk_cons, hv]
  | cons kv rest ih =>
    obtain ⟨k', v'⟩ := kv
    rw [entriesNamesOk_cons] at hl
    simp only [Bool.and_eq_true] at hl
    rw [dictInsert]
    by_cases hk : k' = k
    · rw [if_pos hk, entriesNamesOk_cons]
      simp [hv, hl.2]
    · rw [if_neg hk, entriesNamesOk_cons]
      simp [hl.1, ih hl.2]

theorem all_dictInsert {α : Type} (p : String × α → Bool) (l : List (String × α))
    (k : String) (v : α) (hl : l.all p = true) (hv : p (k, v) = true) :
    (dictInsert l k v).all p = true := by
  induction l with
  | nil => simp [dictInsert, hv]
  | cons kv rest ih =>
    obtain ⟨k', v'⟩ := kv
    simp only [List.all_cons, Bool.and_eq_true] at hl
    rw [dictInsert]
    by_cases hk : k' = k
    · rw [if_pos hk]
      simp [hv, hl.2]
    · rw [if_neg hk]
      simp [hl.1, ih hl.2]

/-- What the group-parsing loop guarantees about a parsed child before it
is stored: a shortcut stored under a non-empty key has a non-empty name;
a nested group obeys the (amended) entry invariant throughout. -/
def entryStoredOk : Entry → Prop
  | .shortcut s => s.nixName ≠ "" → s.name ≠ ""
  | .group g => entriesNamesOk g.shortcuts = true

/-- The combined induction over the mutually recursive parsers, ranked by
the same measure that proves their termination. -/
theorem parse_names_good :
    ∀ r : Nat,
      (∀ e : RawNode, 3 * e.size + 2 ≤ r →
        ∀ ent, parse_shortcut_element e = some ent → entryStoredOk ent) ∧
        (∀ g : RawNode, 3 * g.size + 1 ≤ r →
          ∀ grp, parse_group g = some grp →
            entriesNamesOk grp.shortcuts = true ∧ (grp.nixName ≠ "" → grp.name ≠ "")) ∧
        (∀ es : List RawNode, 3 * RawNode.sizeList es + 3 ≤ r →
          ∀ acc, entriesNamesOk acc = true →
            entriesNamesOk (parse_group_elems es acc) = true) := by
  intro r
  induction r using Nat.strong_induction_on with
  | _ r ih =>
    refine ⟨?_, ?_, ?_⟩
    · intro e hr ent h
      rw [parse_shortcut_element] at h
      split at h
      · exact absurd h (by simp)
      · split at h
        · exact absurd h (by simp)
        · split at h
          · split at h
            · exact absurd h (by simp)
            · obtain ⟨grp, hg, hent⟩ := Option.map_eq_some'.mp h
              subst hent
              show entriesNamesOk grp.shortcuts = true
              exact (((ih (r - 1) (by omega)).2.1 e (by omega) grp hg)).1
          · injection h with h
            subst h
            intro hnix
            exact clean_name_ne_of_camel_ne hnix
    · intro g hr grp h
      rw [parse_group] at h
      split at h
      · exact absurd h (by simp)
      · split at h
        · exact absurd h (by simp)
        · split at h
          · exact absurd h (by simp)
          · injection h with h
            subst h
            have hsz := RawNode.sizeList_elementsVal_lt g
            constructor
            · show entriesNamesOk (parse_group_elems g.elementsVal []) = true
              exact (ih (r - 1) (by omega)).2.2 g.elementsVal (by omega) [] rfl
            · intro hnix
              exact clean_name_ne_of_camel_ne hnix
    · intro es hr acc hacc
      cases es with
      | nil =>
        rw [parse_group_elems]
        exact hacc
      | cons e rest =>
        rw [RawNode.sizeList_cons] at hr
        have hsz := RawNode.size_pos e
        rw [parse_group_elems]
        cases hpse : parse_shortcut_element e with
        | none =>
          simp only [hpse]
          exact (ih (r - 1) (by omega)).2.2 rest (by omega) acc hacc
        | some ent =>
          have hent := (ih (r - 1) (by omega)).1 e (by omega) ent hpse
          cases ent with
          | group grp =>
            simp only [hpse]
            refine (ih (r - 1) (by omega)).2.2 rest (by omega) _ ?_
            refine entriesNamesOk_dictInsert acc grp.nixName (Entry.group grp) hacc ?_
            rw [entryNamesOk_group]
            exact hent
          | shortcut s =>
            simp only [hpse]
            by_cases hnix : s.nixName = ""
            · rw [if_neg (by simp [hnix])]
              exact (ih (r - 1) (by omega)).2.2 rest (by omega) acc hacc
            · rw [if_pos (by simp [hnix])]
              refine (ih (r - 1) (by omega)).2.2 rest (by omega) _ ?_
              refine entriesNamesOk_dictInsert acc s.nixName (Entry.shortcut s) hacc ?_
              rw [entryNamesOk_shortcut]
              simp [hent hnix]

theorem pse_good (e : RawNode) :
    ∀ ent, parse_shortcut_element e = some ent → entryStoredOk ent :=
  (parse_names_good (3 * e.size + 2)).1 e le_rfl

theorem pg_good (g : RawNode) :
    ∀ grp, parse_group g = some grp →
      entriesNamesOk grp.shortcuts = true ∧ (grp.nixName ≠ "" → grp.name ≠ "") :=
  (parse_names_good (3 * g.size + 1)).2.1 g le_rfl

theorem parse_category_elems_good (es : List RawNode) :
    ∀ (sc : List (String × Shortcut)) (sg : List (String × Grp)),
      sc.all (fun kv => decide (kv.2.name ≠ "")) = true →
      sg.all (fun kv => grpNamesOk kv.2) = true →
      (parse_category_elems es sc sg).1.all (fun kv => decide (kv.2.name ≠ "")) = true ∧
        (parse_category_elems es sc sg).2.all (fun kv => grpNamesOk kv.2) = true := by
  induction es with
  | nil =>
    intro sc sg h1 h2
    exact ⟨h1, h2⟩
  | cons e rest ih =>
    intro sc sg h1 h2
    rw [parse_category_elems]
    by_cases hb : e.attrs.hasElements = true ∧ e.attrs.sybmolichotkey = none
    · rw [if_pos hb]
      cases hpg : parse_group e with
      | none =>
        simp only [hpg]
        exact ih sc sg h1 h2
      | some grp =>
        simp only [hpg]
        by_cases hnix : grp.nixName = ""
        · rw [if_neg (by simp [hnix])]
          exact ih sc sg h1 h2
        · rw [if_pos (by simp [hnix])]
          refine ih sc _ h1 ?_
          refine all_dictInsert _ sg grp.nixName grp h2 ?_
          have hg := pg_good e grp hpg
          simp only [grpNamesOk, Bool.and_eq_true]
          exact ⟨by simp [hg.2 hnix], hg.1⟩
    · rw [if_neg hb]
      cases hpse : parse_shortcut_element e with
      | none =>
        simp only [hpse]
        exact ih sc sg h1 h2
      | some ent =>
        cases ent with
        | group grp =>
          simp only [hpse]
          exact ih sc sg h1 h2
        | shortcut s =>
          simp only [hpse]
          by_cases hnix : s.nixName = ""
          · rw [if_neg (by simp [hnix])]
            exact ih sc sg h1 h2
          · rw [if_pos (by simp [hnix])]
            refine ih _ sg ?_ h2
            refine all_dictInsert _ sc s.nixName s h1 ?_
            have hs := pse_good e (Entry.shortcut s) hpse
            simp [hs hnix]

theorem parse_category_good (c : RawNode) (cat : Category)
    (h : parse_category c = some cat) (hnix : cat.nixName ≠ "") :
    catNamesOk cat = true := by
  rw [parse_category] at h
  split at h
  · exact absurd h (by simp)
  · rename_i hcond
    injection h with h
    subst h
    simp only [Bool.or_eq_true, decide_eq_true_eq] at hcond
    push_neg at hcond
    have hpce := parse_category_elems_good c.elementsVal [] [] rfl rfl
    simp only [catNamesOk, Bool.and_eq_true]
    refine ⟨⟨⟨?_, ?_⟩, hpce.1⟩, hpce.2⟩
    · simpa using clean_name_ne_of_camel_ne hnix
    · simpa using hcond.2

/-- C4 (amended): in every tree built from any raw document, every
category has a non-empty name and identifier, every direct shortcut and
every subgroup stored in a category has a non-empty name, and every
shortcut stored anywhere inside a group has a non-empty name — but a
nested group stored inside a group's `shortcuts` mapping may itself carry
an empty name. -/
theorem c4_tree_names_amended (doc : List RawNode) :
    treeNamesOk (build_categories doc) = true := by
  suffices h : ∀ (ds : List RawNode) (acc : List (String × Category)),
      treeNamesOk acc = true → treeNamesOk (build_categories_aux ds acc) = true by
    exact h doc [] rfl
  intro ds
  induction ds with
  | nil =>
    intro acc h
    rw [build_categories_aux]
    exact h
  | cons c rest ih =>
    intro acc h
    rw [build_categories_aux]
    cases hpc : parse_category c with
    | none =>
      simp only [hpc]
      exact ih acc h
    | some cat =>
      simp only [hpc]
      by_cases hnix : cat.nixName = ""
      · rw [if_neg (by simp [hnix])]
        exact ih acc h
      · rw [if_pos (by simp [hnix])]
        refine ih _ ?_
        exact all_dictInsert _ _ _ _ h (parse_category_good c cat hpc hnix)

end Hotkeys

